import Mathlib

/-!
Verification of the trajectory-interpolation, rate-diagnostics and
base-action post-processing logic of `aloha/robot_utils.py`.

Modelling conventions:
* Python/numpy floating-point values are modelled as exact rationals (`ℚ`);
  the claims under study are algebraic identities and length facts, which the
  exact model settles.
* numpy's NaN (arising from `np.mean` of an empty array) is modelled by
  `Option ℚ` with `none` standing for NaN; `Option.map` models NaN
  propagation through `1 / x`.
* `np.linspace`, `np.convolve` and `deque(maxlen=50)` are modelled after
  their documented numpy / CPython semantics, since the repository calls
  into them.
-/

namespace RobotUtils

/-- The fixed control timestep `DT` (0.02 s) imported from `aloha.constants`. -/
def DT : ℚ := 1 / 50

/-- Step count `int(move_time / DT)` of `move_arms` / `move_grippers`: the floor of the
quotient, as a natural number (all claims use `move_time > 0`, where Python's
truncation toward zero agrees with the floor; negative quotients truncate to
an empty step count either way). -/
def num_steps (move_time : ℚ) : ℕ := (Int.floor (move_time / DT)).toNat

/-- The `i`-th of `num` points of `np.linspace a b num`: `a + i*(b-a)/(num-1)`,
with numpy's explicit `y[-1] = stop` overwrite when `endpoint` and `num > 1`. -/
def linspacePoint (a b : ℚ) (num i : ℕ) : ℚ :=
  if 1 < num ∧ i = num - 1 then b else a + (i : ℚ) * (b - a) / ((num : ℚ) - 1)

/-- Model of `np.linspace a b num` on scalars (used by `move_grippers`). -/
def linspace (a b : ℚ) (num : ℕ) : List ℚ :=
  (List.range num).map (linspacePoint a b num)

/-- Model of `np.linspace a b num` on equal-length vectors (used by `move_arms`):
numpy broadcasts elementwise.  Faithful only on equal-length vectors: on
mismatched shapes numpy raises a broadcast `ValueError` (and replicates a
length-1 operand) where `zipWith` would truncate, so every theorem about
arm poses restricts to equal-length pose pairs. -/
def vecLinspace (a b : List ℚ) (num : ℕ) : List (List ℚ) :=
  (List.range num).map (fun i => List.zipWith (fun x y => linspacePoint x y num i) a b)

/-- Per-actuator trajectories of `move_arms`: `zip` pairs each current pose
with a target pose (silently truncating to the shorter list) and `np.linspace`
interpolates elementwise. -/
def move_arms_traj (curr_pose_list target_pose_list : List (List ℚ)) (move_time : ℚ) :
    List (List (List ℚ)) :=
  (curr_pose_list.zip target_pose_list).map
    (fun p => vecLinspace p.1 p.2 (num_steps move_time))

/-- Per-actuator trajectories of `move_grippers` (scalar positions). -/
def move_grippers_traj (curr_pose_list target_pose_list : List ℚ) (move_time : ℚ) :
    List (List ℚ) :=
  (curr_pose_list.zip target_pose_list).map
    (fun p => linspace p.1 p.2 (num_steps move_time))

/-- The dispatch order of the playback loops: `for t in range(num_steps): for
bot_id, bot in enumerate(bot_list)`. -/
def stepOrder (numSteps numBots : ℕ) : List (ℕ × ℕ) :=
  (List.range numSteps).flatMap (fun t => (List.range numBots).map (fun b => (t, b)))

/-- Runs the dispatch loop over the pending `(t, bot_id)` pairs: each
iteration reads `traj_list[bot_id][t]` and dispatches it; a failing index
lookup (Python `IndexError`) aborts the remaining playback.  Returns the
commands issued (in order) and whether the loop completed without error. -/
def playbackAux {α : Type} (traj : List (List α)) :
    List (ℕ × ℕ) → List (ℕ × ℕ × α) × Bool
  | [] => ([], true)
  | p :: rest =>
    match traj[p.2]? with
    | none => ([], false)
    | some path =>
      match path[p.1]? with
      | none => ([], false)
      | some wp =>
        let r := playbackAux traj rest
        ((p.1, p.2, wp) :: r.1, r.2)

/-- The playback loop of `move_arms` / `move_grippers`. -/
def playback {α : Type} (numBots numSteps : ℕ) (traj : List (List α)) :
    List (ℕ × ℕ × α) × Bool :=
  playbackAux traj (stepOrder numSteps numBots)

/-- Model of `move_arms`, observed through the command sequence it dispatches: builds
the trajectories, then plays them back. `bot_list` is represented by
`curr_pose_list` (one current pose per bot). -/
def move_arms (curr_pose_list target_pose_list : List (List ℚ)) (move_time : ℚ) :
    List (ℕ × ℕ × List ℚ) × Bool :=
  playback curr_pose_list.length (num_steps move_time)
    (move_arms_traj curr_pose_list target_pose_list move_time)

/-- Model of `move_grippers`, observed through the command sequence it dispatches. -/
def move_grippers (curr_pose_list target_pose_list : List ℚ) (move_time : ℚ) :
    List (ℕ × ℕ × ℚ) × Bool :=
  playback curr_pose_list.length (num_steps move_time)
    (move_grippers_traj curr_pose_list target_pose_list move_time)

/-- Model of `calibrate_linear_vel` on a single 2-vector `(linear_vel, angular_vel)`;
`c = None` (modelled `none`) defaults to `0`. -/
def calibrate_linear_vel (base_action : ℚ × ℚ) (c : Option ℚ) : ℚ × ℚ :=
  let coeff := c.getD 0
  (base_action.1 - coeff * base_action.2, base_action.2)

/-- Model of `postprocess_base_action`: `angular_vel *= 0.9`, linear velocity passed
through. -/
def postprocess_base_action (base_action : ℚ × ℚ) : ℚ × ℚ :=
  (base_action.1, base_action.2 * (9 / 10))

/-- The `dt_helper` closure of both `print_diagnostics` methods: the mean of the
consecutive differences `ts[1:] - ts[:-1]`.  `np.mean` of the empty array is
NaN, modelled by `none`. -/
def dt_helper (ts : List ℚ) : Option ℚ :=
  let diff := List.zipWith (fun a b => a - b) ts.tail ts
  if diff.length = 0 then none else some (diff.sum / (diff.length : ℚ))

/-- The frequency `1 / dt_helper ts` printed by the diagnostics; `1 / NaN` is
NaN again (`Option.map` propagates `none`). -/
def stream_freq (ts : List ℚ) : Option ℚ :=
  (dt_helper ts).map (fun m => 1 / m)

/-- Model of `print_diagnostics`: one frequency line per recorded timestamp history
(`none` = the printed value is NaN).  Neither recorder guards short
histories; no exception path exists. -/
def print_diagnostics (histories : List (List ℚ)) : List (Option ℚ) :=
  histories.map stream_freq

/-- Append to a `deque(maxlen=50)`: when full, the oldest entries are evicted
from the front. -/
def dequeAppend (cap : ℕ) (xs : List ℚ) (x : ℚ) : List ℚ :=
  if xs.length < cap then xs ++ [x] else (xs ++ [x]).drop (xs.length + 1 - cap)

/-- The per-camera fields of `ImageRecorder` touched by `image_cb`
(`{cam}_image`, `{cam}_secs`, `{cam}_nsecs`, `{cam}_timestamps`); the image
payload is opaque (`ℕ`). -/
structure CamStream where
  image : Option ℕ
  secs : Option ℚ
  nsecs : Option ℚ
  timestamps : List ℚ

/-- Model of `ImageRecorder.image_cb`: stores the converted image and the stamp's
`secs`/`nsecs`, and — in debug mode — appends
`data.header.stamp.secs + data.header.stamp.secs * 1e-9` to the bounded
timestamp history (the source uses `secs` in both summands). -/
def image_cb (is_debug : Bool) (s : CamStream) (secs nsecs : ℚ) (img : ℕ) : CamStream :=
  { image := some img
    secs := some secs
    nsecs := some nsecs
    timestamps :=
      if is_debug then dequeAppend 50 s.timestamps (secs + secs * (1 / 1000000000))
      else s.timestamps }

/-- The smoothing kernel `np.ones(5)/5`. -/
def kernel5 : List ℚ := List.replicate 5 (1 / 5)

/-- Full discrete convolution (`np.convolve` mode `full`):
`out[k] = Σ_i x[i] * h[k-i]`, length `len(x) + len(h) - 1`. -/
def convolve_full (x h : List ℚ) : List ℚ :=
  (List.range (x.length + h.length - 1)).map (fun k =>
    ((List.range (k + 1)).map (fun i => x.getD i 0 * h.getD (k - i) 0)).sum)

/-- Model of `np.convolve` mode `same`: the centered slice of the full convolution,
of length `max (len x) (len h)`, starting at offset
`(min (len x) (len h) - 1) / 2` (numpy swaps arguments so the shorter one is
the kernel, then crops the correlation). -/
def convolve_same (x h : List ℚ) : List ℚ :=
  ((convolve_full x h).drop ((min x.length h.length - 1) / 2)).take
    (max x.length h.length)

/-- Model of `smooth_base_action`: convolve each of the two components with
`np.ones(5)/5` in `same` mode, then `np.stack(..., axis=-1)` the columns
back into rows (the `float32` cast does not change the exact values in this
rational model). -/
def smooth_base_action (base_action : List (ℚ × ℚ)) : List (ℚ × ℚ) :=
  (convolve_same (base_action.map Prod.fst) kernel5).zip
    (convolve_same (base_action.map Prod.snd) kernel5)

end RobotUtils

open RobotUtils

theorem linspacePoint_zero (a b : ℚ) (num : ℕ) : linspacePoint a b num 0 = a := by
  have h : ¬ (1 < num ∧ 0 = num - 1) := by omega
  simp [linspacePoint, h]

theorem linspacePoint_last (a b : ℚ) (num : ℕ) (h : 1 < num) :
    linspacePoint a b num (num - 1) = b := by
  simp [linspacePoint, h]

theorem linspace_length (a b : ℚ) (num : ℕ) : (linspace a b num).length = num := by
  simp [linspace]

theorem linspace_getElem (a b : ℚ) (num i : ℕ) (h : i < num) :
    (linspace a b num)[i]? = some (linspacePoint a b num i) := by
  simp [linspace, List.getElem?_range h]

theorem vecLinspace_length (a b : List ℚ) (num : ℕ) :
    (vecLinspace a b num).length = num := by
  simp [vecLinspace]

theorem vecLinspace_getElem (a b : List ℚ) (num i : ℕ) (h : i < num) :
    (vecLinspace a b num)[i]?
      = some (List.zipWith (fun x y => linspacePoint x y num i) a b) := by
  simp [vecLinspace, List.getElem?_range h]

theorem zipWith_left_eq {α β : Type} (f : α → β → α) (hf : ∀ x y, f x y = x) :
    ∀ (a : List α) (b : List β), a.length = b.length → List.zipWith f a b = a := by
  intro a
  induction a with
  | nil => intro b _; simp
  | cons x xs ih =>
    intro b hb
    cases b with
    | nil => simp at hb
    | cons y ys =>
      simp only [List.length_cons, Nat.succ.injEq] at hb
      simp [hf, ih ys hb]

theorem zipWith_right_eq {α β : Type} (f : α → β → β) (hf : ∀ x y, f x y = y) :
    ∀ (a : List α) (b : List β), a.length = b.length → List.zipWith f a b = b := by
  intro a
  induction a with
  | nil =>
    intro b hb
    cases b with
    | nil => simp
    | cons y ys => simp at hb
  | cons x xs ih =>
    intro b hb
    cases b with
    | nil => simp at hb
    | cons y ys =>
      simp only [List.length_cons, Nat.succ.injEq] at hb
      simp [hf, ih ys hb]

theorem num_steps_cast (mt : ℚ) (n : ℕ) (h : mt / DT = (n : ℚ)) : num_steps mt = n := by
  rw [num_steps, h, Int.floor_natCast, Int.toNat_natCast]

theorem num_steps_one : num_steps 1 = 50 :=
  num_steps_cast 1 50 (by norm_num [DT])

theorem num_steps_inv25 : num_steps (1 / 25) = 2 :=
  num_steps_cast (1 / 25) 2 (by norm_num [DT])

theorem num_steps_inv50 : num_steps (1 / 50) = 1 :=
  num_steps_cast (1 / 50) 1 (by norm_num [DT])

theorem num_steps_eq_zero (mt : ℚ) (h0 : 0 < mt) (h1 : mt < DT) : num_steps mt = 0 := by
  have hfl : Int.floor (mt / DT) = 0 := by
    rw [Int.floor_eq_zero_iff, Set.mem_Ico]
    refine ⟨div_nonneg h0.le (by norm_num [DT]), ?_⟩
    rw [div_lt_one (by norm_num [DT])]
    exact h1
  simp [num_steps, hfl]

theorem getElem_zip {α β : Type} :
    ∀ (a : List α) (b : List β) (i : ℕ) (x : α) (y : β),
      a[i]? = some x → b[i]? = some y → (a.zip b)[i]? = some (x, y) := by
  intro a
  induction a with
  | nil => intro b i x y hx; simp at hx
  | cons p ps ih =>
    intro b i x y hx hy
    cases b with
    | nil => simp at hy
    | cons q qs =>
      cases i with
      | zero =>
        simp only [List.getElem?_cons_zero, Option.some.injEq] at hx hy
        simp [List.zip_cons_cons, hx, hy]
      | succ j =>
        simp only [List.getElem?_cons_succ] at hx hy
        simpa [List.zip_cons_cons] using ih qs j x y hx hy

/-- C7: `calibrate_linear_vel` maps `(v, w)` with coefficient `c` to
`(v - c*w, w)` (angular component unchanged), and with an unspecified
coefficient (`None`, defaulting to 0) it is the identity transform. -/
theorem calibrate_linear_vel_spec :
    (∀ v w c : ℚ, calibrate_linear_vel (v, w) (some c) = (v - c * w, w)) ∧
    (∀ v w : ℚ, calibrate_linear_vel (v, w) none = (v, w)) := by
  constructor
  · intro v w c
    rfl
  · intro v w
    simp [calibrate_linear_vel]

/-- C8: `postprocess_base_action` maps `(v, w)` to `(v, 0.9*w)`, leaving the
linear component unchanged; in particular `(1, 1) ↦ (1, 0.9)`. -/
theorem postprocess_base_action_spec :
    (∀ v w : ℚ, postprocess_base_action (v, w) = (v, 9 / 10 * w)) ∧
    postprocess_base_action (1, 1) = (1, 9 / 10) := by
  constructor
  · intro v w
    simp [postprocess_base_action, mul_comm]
  · norm_num [postprocess_base_action]

/-- C1: for both trajectory builders (`move_arms` and `move_grippers`), with
equal-length actuator/current and target lists and at least 2 steps, the
per-actuator path has exactly `num_steps` points, its first waypoint equals
that actuator's current position and its last waypoint equals its target
position exactly, for every actuator (arm poses compared as equal-length
vectors, as numpy broadcasting requires). -/
theorem move_trajectories_endpoints :
    (∀ (curr tgt : List (List ℚ)) (mt : ℚ), curr.length = tgt.length →
      2 ≤ num_steps mt →
      ∀ (k : ℕ) (c t : List ℚ), curr[k]? = some c → tgt[k]? = some t →
        c.length = t.length →
        ∃ path, (move_arms_traj curr tgt mt)[k]? = some path ∧
          path.length = num_steps mt ∧
          path[0]? = some c ∧
          path[num_steps mt - 1]? = some t) ∧
    (∀ (curr tgt : List ℚ) (mt : ℚ), curr.length = tgt.length →
      2 ≤ num_steps mt →
      ∀ (k : ℕ) (c t : ℚ), curr[k]? = some c → tgt[k]? = some t →
        ∃ path, (move_grippers_traj curr tgt mt)[k]? = some path ∧
          path.length = num_steps mt ∧
          path[0]? = some c ∧
          path[num_steps mt - 1]? = some t) := by
  constructor
  · intro curr tgt mt _ hsteps k c t hc ht hct
    refine ⟨vecLinspace c t (num_steps mt), ?_, vecLinspace_length c t _, ?_, ?_⟩
    · rw [move_arms_traj, List.getElem?_map, getElem_zip curr tgt k c t hc ht]
      rfl
    · rw [vecLinspace_getElem c t _ 0 (by omega)]
      exact congrArg some
        (zipWith_left_eq _ (fun x y => linspacePoint_zero x y _) c t hct)
    · rw [vecLinspace_getElem c t _ (num_steps mt - 1) (by omega)]
      exact congrArg some
        (zipWith_right_eq _ (fun x y => linspacePoint_last x y _ (by omega)) c t hct)
  · intro curr tgt mt _ hsteps k c t hc ht
    refine ⟨linspace c t (num_steps mt), ?_, linspace_length c t _, ?_, ?_⟩
    · rw [move_grippers_traj, List.getElem?_map, getElem_zip curr tgt k c t hc ht]
      rfl
    · rw [linspace_getElem c t _ 0 (by omega), linspacePoint_zero]
    · rw [linspace_getElem c t _ (num_steps mt - 1) (by omega),
        linspacePoint_last c t _ (by omega)]

/-- C1 witness: one arm with current pose `[0]` and target `[6]`, and one
gripper moving `0 → 6`, over `move_time = 1/25` s (2 steps). -/
theorem move_trajectories_endpoints_witness :
    (∃ path, (move_arms_traj [[(0 : ℚ)]] [[6]] (1 / 25))[0]? = some path ∧
      path.length = num_steps (1 / 25) ∧ path[0]? = some [(0 : ℚ)] ∧
      path[num_steps (1 / 25) - 1]? = some [(6 : ℚ)]) ∧
    (∃ path, (move_grippers_traj [(0 : ℚ)] [6] (1 / 25))[0]? = some path ∧
      path.length = num_steps (1 / 25) ∧ path[0]? = some (0 : ℚ) ∧
      path[num_steps (1 / 25) - 1]? = some (6 : ℚ)) :=
  ⟨move_trajectories_endpoints.1 [[0]] [[6]] (1 / 25) (by simp)
      (by rw [num_steps_inv25]) 0 [0] [6] (by simp) (by simp) (by simp),
    move_trajectories_endpoints.2 [0] [6] (1 / 25) (by simp)
      (by rw [num_steps_inv25]) 0 0 6 (by simp) (by simp)⟩

theorem playbackAux_ok {α : Type} (traj : List (List α)) :
    ∀ ps : List (ℕ × ℕ),
      (∀ p ∈ ps, ∃ path, traj[p.2]? = some path ∧ p.1 < path.length) →
      (playbackAux traj ps).2 = true ∧ (playbackAux traj ps).1.length = ps.length := by
  intro ps
  induction ps with
  | nil => intro _; exact ⟨rfl, rfl⟩
  | cons p rest ih =>
    intro hall
    obtain ⟨path, hp, hlt⟩ := hall p (List.mem_cons_self p rest)
    have hwp : path[p.1]? = some (path[p.1]) := List.getElem?_eq_getElem hlt
    have hrest := ih (fun q hq => hall q (List.mem_cons_of_mem p hq))
    simp [playbackAux, hp, hwp, hrest.1, hrest.2]

theorem stepOrder_length (ns nb : ℕ) : (stepOrder ns nb).length = ns * nb := by
  rw [stepOrder, List.length_flatMap]
  simp only [Function.comp_def]
  have h : (List.range ns).map (fun t => ((List.range nb).map (fun b => (t, b))).length)
      = List.replicate ns nb := by
    rw [List.eq_replicate_iff]
    refine ⟨by simp, ?_⟩
    intro x hx
    simp only [List.mem_map, List.mem_range] at hx
    obtain ⟨t, _, rfl⟩ := hx
    simp
  rw [h, List.sum_replicate, smul_eq_mul]

theorem stepOrder_mem (ns nb : ℕ) (p : ℕ × ℕ) (hp : p ∈ stepOrder ns nb) :
    p.1 < ns ∧ p.2 < nb := by
  simp only [stepOrder, List.mem_flatMap, List.mem_map, List.mem_range] at hp
  obtain ⟨t, ht, b, hb, rfl⟩ := hp
  exact ⟨ht, hb⟩

theorem move_arms_traj_length (curr tgt : List (List ℚ)) (mt : ℚ) :
    (move_arms_traj curr tgt mt).length = min curr.length tgt.length := by
  simp [move_arms_traj]

theorem move_grippers_traj_length (curr tgt : List ℚ) (mt : ℚ) :
    (move_grippers_traj curr tgt mt).length = min curr.length tgt.length := by
  simp [move_grippers_traj]

theorem move_arms_traj_paths (curr tgt : List (List ℚ)) (mt : ℚ) :
    ∀ path ∈ move_arms_traj curr tgt mt, path.length = num_steps mt := by
  intro path hpath
  simp only [move_arms_traj, List.mem_map] at hpath
  obtain ⟨q, _, rfl⟩ := hpath
  exact vecLinspace_length q.1 q.2 _

theorem move_grippers_traj_paths (curr tgt : List ℚ) (mt : ℚ) :
    ∀ path ∈ move_grippers_traj curr tgt mt, path.length = num_steps mt := by
  intro path hpath
  simp only [move_grippers_traj, List.mem_map] at hpath
  obtain ⟨q, _, rfl⟩ := hpath
  exact linspace_length q.1 q.2 _

theorem playback_completes {α : Type} (traj : List (List α)) (ns nb : ℕ)
    (hlen : traj.length = nb) (hpaths : ∀ path ∈ traj, path.length = ns) :
    (playback nb ns traj).2 = true ∧ (playback nb ns traj).1.length = ns * nb := by
  have h := playbackAux_ok traj (stepOrder ns nb) ?_
  · exact ⟨h.1, h.2.trans (stepOrder_length ns nb)⟩
  · intro p hp
    obtain ⟨ht, hb⟩ := stepOrder_mem ns nb p hp
    have hb2 : p.2 < traj.length := by omega
    refine ⟨traj[p.2], List.getElem?_eq_getElem hb2, ?_⟩
    rw [hpaths _ (List.getElem_mem hb2)]
    exact ht

/-- C2 counterexample: `move_arms` with one bot but two target poses (a
length mismatch) raises no error at all — the playback completes (`true`)
after dispatching a command, so there is no fail-fast shape check before
dispatch. -/
theorem move_arms_mismatch_dispatches :
    (move_arms [[(0 : ℚ)]] [[6], [7]] (1 / 50)).2 = true ∧
    (move_arms [[(0 : ℚ)]] [[6], [7]] (1 / 50)).1 = [(0, 0, [0])] := by
  have htraj : move_arms_traj [[(0 : ℚ)]] [[6], [7]] (1 / 50) = [[[(0 : ℚ)]]] := by
    rw [move_arms_traj, num_steps_inv50]
    have hr1 : List.range 1 = [0] := by decide
    simp [vecLinspace, hr1, linspacePoint_zero]
  have hso : stepOrder 1 1 = [(0, 0)] := by decide
  rw [move_arms, htraj, num_steps_inv50]
  show (playback 1 1 [[[(0 : ℚ)]]]).2 = true ∧
    (playback 1 1 [[[(0 : ℚ)]]]).1 = [(0, 0, [0])]
  rw [playback, hso]
  simp [playbackAux]

/-- C2 amended: the playback functions perform no shape validation at all.
The trajectory list is silently truncated to `min` of the two lengths by
`zip`; with at least as many targets as bots — and, for arms, per-actuator
pose vectors of matching length, the domain on which `np.linspace`
broadcasts without error — the call completes normally (extra targets
ignored, `steps * bots` commands dispatched); with fewer targets than bots
the call aborts with an index error only during dispatch of the first step,
after commands for the available actuators were already issued — never
before any dispatch. -/
theorem move_no_shape_validation :
    (∀ (curr tgt : List (List ℚ)) (mt : ℚ),
      (move_arms_traj curr tgt mt).length = min curr.length tgt.length) ∧
    (∀ (curr tgt : List (List ℚ)) (mt : ℚ), curr.length ≤ tgt.length →
      (∀ (k : ℕ) (c t : List ℚ), curr[k]? = some c → tgt[k]? = some t →
        c.length = t.length) →
      (move_arms curr tgt mt).2 = true ∧
      (move_arms curr tgt mt).1.length = num_steps mt * curr.length) ∧
    (∀ (curr tgt : List ℚ) (mt : ℚ), curr.length ≤ tgt.length →
      (move_grippers curr tgt mt).2 = true ∧
      (move_grippers curr tgt mt).1.length = num_steps mt * curr.length) ∧
    move_arms [[(0 : ℚ)], [0]] [[6]] (1 / 50) = ([(0, 0, [0])], false) := by
  refine ⟨move_arms_traj_length, ?_, ?_, ?_⟩
  · intro curr tgt mt hle hposes
    have hmin : min curr.length tgt.length = curr.length := by omega
    have h := playback_completes (move_arms_traj curr tgt mt) (num_steps mt)
      curr.length ((move_arms_traj_length curr tgt mt).trans hmin)
      (move_arms_traj_paths curr tgt mt)
    rw [move_arms]
    exact h
  · intro curr tgt mt hle
    have hmin : min curr.length tgt.length = curr.length := by omega
    have h := playback_completes (move_grippers_traj curr tgt mt) (num_steps mt)
      curr.length ((move_grippers_traj_length curr tgt mt).trans hmin)
      (move_grippers_traj_paths curr tgt mt)
    rw [move_grippers]
    exact h
  · have htraj : move_arms_traj [[(0 : ℚ)], [0]] [[6]] (1 / 50) = [[[(0 : ℚ)]]] := by
      rw [move_arms_traj, num_steps_inv50]
      have hr1 : List.range 1 = [0] := by decide
      simp [vecLinspace, hr1, linspacePoint_zero, List.zip_nil_right]
    have hso : stepOrder 1 2 = [(0, 0), (0, 1)] := by decide
    rw [move_arms, htraj, num_steps_inv50]
    show playback 2 1 [[[(0 : ℚ)]]] = ([(0, 0, [0])], false)
    rw [playback, hso]
    simp [playbackAux]

/-- C2 witness: one bot, two targets (mismatched lengths, targets longer):
the arm playback completes with `steps * bots` commands and no error. -/
theorem move_no_shape_validation_witness :
    (move_arms [[(0 : ℚ)]] [[6], [7]] (1 / 50)).2 = true ∧
    (move_arms [[(0 : ℚ)]] [[6], [7]] (1 / 50)).1.length
      = num_steps (1 / 50) * [[(0 : ℚ)]].length :=
  move_no_shape_validation.2.1 [[0]] [[6], [7]] (1 / 50) (by simp)
    (by
      intro k c t hc ht
      cases k with
      | zero =>
        simp only [List.getElem?_cons_zero, Option.some.injEq] at hc ht
        subst hc
        subst ht
        rfl
      | succ n =>
        rw [List.getElem?_cons_succ] at hc
        simp at hc)

/-- C10: when `0 < move_time < DT` (so `int(move_time / DT) = 0`), both
`move_arms` and `move_grippers` dispatch no actuator command at all and
return normally (an empty playback, no error). -/
theorem move_short_time_empty_playback (curr tgt : List (List ℚ))
    (gcurr gtgt : List ℚ) (mt : ℚ) (h0 : 0 < mt) (h1 : mt < DT) :
    move_arms curr tgt mt = ([], true) ∧ move_grippers gcurr gtgt mt = ([], true) := by
  have hz := num_steps_eq_zero mt h0 h1
  constructor
  · rw [move_arms, hz]
    rfl
  · rw [move_grippers, hz]
    rfl

/-- C10 witness: `move_time = 1/100 < DT = 1/50`. -/
theorem move_short_time_empty_playback_witness :
    move_arms [[(0 : ℚ)]] [[6]] (1 / 100) = ([], true) ∧
    move_grippers [(0 : ℚ)] [6] (1 / 100) = ([], true) :=
  move_short_time_empty_playback [[0]] [[6]] [0] [6] (1 / 100)
    (by norm_num) (by norm_num [DT])

/-- C5: for every timestamp sequence of length ≥ 2 whose consecutive
differences all equal a constant d > 0, the rate estimator (`dt_helper`
composed with the reciprocal) returns exactly `1 / d`: the mean of the
constant difference array is `d` (exact in this rational model; the spec
allows floating-point tolerance). -/
theorem rate_estimator_constant_spacing (ts : List ℚ) (d : ℚ)
    (hlen : 2 ≤ ts.length) (hd : 0 < d)
    (hspace : ∀ i (h : i + 1 < ts.length), ts[i + 1] - ts[i] = d) :
    stream_freq ts = some (1 / d) := by
  have hdiff : List.zipWith (fun a b => a - b) ts.tail ts
      = List.replicate (ts.length - 1) d := by
    apply List.ext_getElem?
    intro i
    rcases Nat.lt_or_ge i (ts.length - 1) with hi | hi
    · have h1 : i + 1 < ts.length := by omega
      have h0 : i < ts.length := by omega
      rw [List.getElem?_zipWith, List.getElem?_tail,
        List.getElem?_eq_getElem h1, List.getElem?_eq_getElem h0,
        List.getElem?_replicate, if_pos hi]
      exact congrArg some (hspace i h1)
    · have hz : (List.zipWith (fun a b => a - b) ts.tail ts).length ≤ i := by
        rw [List.length_zipWith, List.length_tail]
        omega
      rw [List.getElem?_eq_none hz,
        List.getElem?_eq_none (by rw [List.length_replicate]; omega)]
  have hn0 : ((ts.length - 1 : ℕ) : ℚ) ≠ 0 := Nat.cast_ne_zero.mpr (by omega)
  have hmean : dt_helper ts = some d := by
    rw [dt_helper]
    simp only [hdiff, List.length_replicate, List.sum_replicate, nsmul_eq_mul]
    rw [if_neg (by omega : ¬ (ts.length - 1 = 0)), mul_div_cancel_left₀ d hn0]
  rw [stream_freq, hmean]
  rfl

/-- C5 witness: the spec's scenario, timestamps `[0, 0.1, 0.2, 0.3]` with
constant spacing `d = 1/10`: the estimated frequency is `1/(1/10) = 10`. -/
theorem rate_estimator_constant_spacing_witness :
    stream_freq [0, 1 / 10, 2 / 10, 3 / 10] = some (1 / (1 / 10)) :=
  rate_estimator_constant_spacing [0, 1 / 10, 2 / 10, 3 / 10] (1 / 10)
    (by simp) (by norm_num)
    (by intro i h
        have h4 : i < 3 := by simp at h; omega
        interval_cases i <;>
          norm_num [List.getElem_cons_zero, List.getElem_cons_succ])

/-- C4 counterexample: with an empty timestamp history (fewer than 2
samples), the diagnostics' frequency value is NaN (`none`), silently
produced — there is no explicit error and no not-yet-available report in
the code. -/
theorem diagnostics_short_history_nan :
    ([] : List ℚ).length < 2 ∧ stream_freq ([] : List ℚ) = none :=
  ⟨by norm_num, rfl⟩

/-- C4 amended: for a stream history with fewer than 2 timestamps,
`dt_helper` takes `np.mean` of an empty difference array, which is NaN, and
`print_diagnostics` silently prints the resulting NaN frequency line for
that stream (`some none` = a line is printed, its value is NaN): no
exception is raised and no explicit not-yet-available report is made. -/
theorem diagnostics_short_history_prints_nan (hists : List (List ℚ)) (k : ℕ)
    (ts : List ℚ) (hk : hists[k]? = some ts) (hshort : ts.length < 2) :
    stream_freq ts = none ∧ (print_diagnostics hists)[k]? = some none := by
  have hfreq : stream_freq ts = none := by
    rw [stream_freq, dt_helper]
    have hz : (List.zipWith (fun a b => a - b) ts.tail ts).length = 0 := by
      rw [List.length_zipWith, List.length_tail]
      omega
    simp [hz]
  refine ⟨hfreq, ?_⟩
  rw [print_diagnostics, List.getElem?_map, hk]
  simp [hfreq]

/-- C4 witness: one camera stream with an empty history: the printed
frequency line for it is NaN. -/
theorem diagnostics_short_history_prints_nan_witness :
    stream_freq ([] : List ℚ) = none ∧ (print_diagnostics [[]])[0]? = some none :=
  diagnostics_short_history_prints_nan [[]] 0 [] (by simp) (by norm_num)

/-- C9: in debug mode, `image_cb` appends
`stamp.secs + stamp.secs * 1e-9` to the camera's timestamp history — the
value depends only on the seconds field, and the nanoseconds field (and the
image payload) never influence the recorded history. -/
theorem image_cb_history_ignores_nsecs :
    (∀ (s : CamStream) (secs nsecs : ℚ) (img : ℕ),
      (image_cb true s secs nsecs img).timestamps
        = dequeAppend 50 s.timestamps (secs + secs * (1 / 1000000000))) ∧
    (∀ (dbg : Bool) (s : CamStream) (secs n1 n2 : ℚ) (img1 img2 : ℕ),
      (image_cb dbg s secs n1 img1).timestamps
        = (image_cb dbg s secs n2 img2).timestamps) := by
  constructor
  · intro s secs nsecs img
    rfl
  · intro dbg s secs n1 n2 img1 img2
    rfl

theorem convolve_full_length (x h : List ℚ) :
    (convolve_full x h).length = x.length + h.length - 1 := by
  simp [convolve_full]

theorem convolve_same_length (x h : List ℚ) (hx : 1 ≤ x.length)
    (hh : 1 ≤ h.length) :
    (convolve_same x h).length = max x.length h.length := by
  rw [convolve_same, List.length_take, List.length_drop, convolve_full_length]
  omega

theorem smooth_base_action_length (xs : List (ℚ × ℚ)) (hx : 1 ≤ xs.length) :
    (smooth_base_action xs).length = max xs.length 5 := by
  have h1 : (1 : ℕ) ≤ (xs.map Prod.fst).length := by simpa using hx
  have h2 : (1 : ℕ) ≤ (xs.map Prod.snd).length := by simpa using hx
  have hk : (1 : ℕ) ≤ kernel5.length := by norm_num [kernel5]
  rw [smooth_base_action, List.length_zip,
    convolve_same_length _ _ h1 hk, convolve_same_length _ _ h2 hk]
  simp [kernel5]

/-- C3 counterexample: a single-sample input sequence: the smoothed output
has 5 elements, not 1 — numpy same-mode convolution returns `max(M, N)`
elements, which exceeds the input length whenever the input is shorter than
the 5-wide kernel. -/
theorem smooth_base_action_not_length_preserving :
    (smooth_base_action [((1 : ℚ), (1 : ℚ))]).length
      ≠ [((1 : ℚ), (1 : ℚ))].length := by
  rw [smooth_base_action_length [((1 : ℚ), (1 : ℚ))] (by norm_num)]
  norm_num

/-- C3 amended: for every input sequence of length ≥ 1, `smooth_base_action`
returns `max (input length) 5` rows (numpy `same`-mode semantics with the
5-wide kernel); in particular the output length equals the input length
exactly when the input has at least 5 samples. -/
theorem smooth_base_action_length_spec (xs : List (ℚ × ℚ)) (hx : 1 ≤ xs.length) :
    (smooth_base_action xs).length = max xs.length 5 ∧
    (5 ≤ xs.length → (smooth_base_action xs).length = xs.length) := by
  refine ⟨smooth_base_action_length xs hx, fun h5 => ?_⟩
  rw [smooth_base_action_length xs hx]
  omega

/-- C3 witness: a 6-sample input keeps its length (6 = max 6 5). -/
theorem smooth_base_action_length_spec_witness :
    (smooth_base_action (List.replicate 6 ((0 : ℚ), (0 : ℚ)))).length
        = max (List.replicate 6 ((0 : ℚ), (0 : ℚ))).length 5 ∧
    (5 ≤ (List.replicate 6 ((0 : ℚ), (0 : ℚ))).length →
      (smooth_base_action (List.replicate 6 ((0 : ℚ), (0 : ℚ)))).length
        = (List.replicate 6 ((0 : ℚ), (0 : ℚ))).length) :=
  smooth_base_action_length_spec (List.replicate 6 ((0 : ℚ), (0 : ℚ))) (by simp)

/-- C6: `move_arms` from `[0,0,0,0,0,0]` to `[6,6,6,6,6,6]` with
`move_time = 1.0` s and `DT = 0.02` s: `int(1.0/0.02) = 50` waypoints, and
waypoint 25 is `[150/49, ...]`, each component within `1/10` of 3
(`np.linspace`'s 50 inclusive points place index 25 at `25*6/49 ≈ 3.06`,
approximately the midpoint value 3). -/
theorem move_arms_scenario_waypoints :
    num_steps 1 = 50 ∧
    ∃ path,
      (move_arms_traj [List.replicate 6 (0 : ℚ)] [List.replicate 6 6] 1)[0]?
          = some path ∧
      path.length = 50 ∧
      path[25]? = some (List.replicate 6 (150 / 49)) ∧
      ∀ q ∈ List.replicate 6 ((150 : ℚ) / 49), |q - 3| < 1 / 10 := by
  refine ⟨num_steps_one,
    vecLinspace (List.replicate 6 0) (List.replicate 6 6) 50, ?_, ?_, ?_, ?_⟩
  · rw [move_arms_traj, num_steps_one]
    simp
  · exact vecLinspace_length _ _ _
  · rw [vecLinspace_getElem _ _ 50 25 (by omega)]
    congr 1
    have hz : ∀ n, List.zipWith (fun x y => linspacePoint x y 50 25)
        (List.replicate n (0 : ℚ)) (List.replicate n (6 : ℚ))
        = List.replicate n (150 / 49) := by
      intro n
      induction n with
      | zero => rfl
      | succ m ih =>
        simp only [List.replicate_succ, List.zipWith_cons_cons, ih]
        norm_num [linspacePoint]
    exact hz 6
  · intro q hq
    rw [List.eq_of_mem_replicate hq,
      show (150 : ℚ) / 49 - 3 = 3 / 49 by norm_num,
      abs_of_pos (by norm_num)]
    norm_num
